import Mathlib

/-!
Verification of the synchronization engine of the family-finance-hub
repository, shallowly embedded from `src/js/sync-manager.js`.

JavaScript objects used as string-keyed dictionaries (the vector clock)
and the insertion-ordered `Map` built by `mergeCollection` share the same
update semantics: assigning an existing key replaces its value in place,
assigning a fresh key appends it at the end.  Both are embedded as
association lists `List (String × α)` through `objGet?` / `objSet` below.
Timestamps (`Date.now()`, `new Date(s).getTime()`) are embedded as `Nat`
millisecond values; `async` effects (network fetch, IndexedDB writes,
transmission of one queued operation) are embedded as explicit outcome
parameters, and a promise that may reject is embedded as a result paired
with `Except String Unit`.
-/

namespace FFH

/-- Lookup in a JS object / `Map`: the first binding of key `k`, if any. -/
def objGet? (m : List (String × α)) (k : String) : Option α :=
  (m.find? (fun p => p.1 == k)).map (fun p => p.2)

/-- Key-presence test (`map.has(k)`, `obj[k] !== undefined`). -/
def objHas (m : List (String × α)) (k : String) : Bool :=
  m.any (fun p => p.1 == k)

/-- JS `obj[k] = v` / `map.set(k, v)`: replace in place when the key is
present, append otherwise. -/
def objSet (m : List (String × α)) (k : String) (v : α) : List (String × α) :=
  if objHas m k then m.map (fun p => if p.1 == k then (k, v) else p)
  else m ++ [(k, v)]

/-- `Object.keys` in insertion order. -/
def objKeys (m : List (String × α)) : List String := m.map (fun p => p.1)

/-- `map.values()` in insertion order (`Array.from(merged.values())`). -/
def objValues (m : List (String × α)) : List α := m.map (fun p => p.2)

/-! ## Vector clocks

A vector clock is a JS object mapping actor (member) ids to counters
(`sync-manager.js:13`, `this.vectorClock = {}`). -/

/-- `this.vectorClock[member]`, with the JS `undefined` read as `0` (the
code only ever compares with `?? 0` semantics: a missing counter behaves
as zero). -/
def vcGet (c : List (String × Nat)) (member : String) : Nat :=
  (objGet? c member).getD 0

/-- One iteration of the clock-merge loop in `mergeData`
(`sync-manager.js:370-374`):

`if (!this.vectorClock[member] || clock > this.vectorClock[member])
this.vectorClock[member] = clock;`

JS falsiness of `this.vectorClock[member]` covers both a missing entry
and an entry equal to `0`. -/
def mergeClockStep (acc : List (String × Nat)) (p : String × Nat) :
    List (String × Nat) :=
  if objHas acc p.1 = false ∨ vcGet acc p.1 = 0 ∨ p.2 > vcGet acc p.1 then
    objSet acc p.1 p.2
  else acc

/-- The clock merge performed by `mergeData`: fold the entries of the remote
clock into the local clock. -/
def mergeClocks (localClock remoteClock : List (String × Nat)) :
    List (String × Nat) :=
  remoteClock.foldl mergeClockStep localClock

/-! ## Records -/

/-- A synchronized record: stable `id`, optional `updatedAt` / `createdAt`
timestamps (absent = JS `undefined`), and opaque domain fields collapsed
into `payload` (the sync engine never inspects them). -/
structure Record where
  id : String
  updatedAt : Option Nat
  createdAt : Option Nat
  payload : String
deriving DecidableEq, Repr

/-- `new Date(r.updatedAt || r.createdAt || 0).getTime()`
(`sync-manager.js:433-434`). -/
def recordTime (r : Record) : Nat :=
  match r.updatedAt with
  | some t => t
  | none =>
    match r.createdAt with
    | some t => t
    | none => 0

/-- The deferred-resolution conflict log: `(localItem, remoteItem, type)`
triples. -/
abbrev ConflictLog := List (Record × Record × String)

/-- Modelled from the spec: `queueConflict` is called at
`sync-manager.js:445` but is defined nowhere in the repository.  Per sections
4.3 and 9 of the spec ("the conflicting pair is appended to a separate
conflict log for out-of-band operator resolution", "treat as an explicit
deferred-resolution list"), it appends the conflicting pair to the
conflict log. -/
def queueConflict (lg : ConflictLog) (localItem remoteItem : Record)
    (type : String) : ConflictLog :=
  lg ++ [(localItem, remoteItem, type)]

/-- `resolveConflict(local, remote, type)` (`sync-manager.js:429-451`),
with the mutable conflict state of the manager threaded explicitly: the
strategy string it switches on, and the conflict log `queueConflict`
appends to.  Returns the resolved record together with the new log. -/
def resolveConflict (strategy : String) (lg : ConflictLog)
    (localItem remoteItem : Record) (type : String) : Record × ConflictLog :=
  if strategy = "last-write-wins" then
    let localTime := recordTime localItem
    let remoteTime := recordTime remoteItem
    (if localTime > remoteTime then localItem else remoteItem, lg)
  else if strategy = "remote-wins" then (remoteItem, lg)
  else if strategy = "local-wins" then (localItem, lg)
  else if strategy = "manual" then
    (localItem, queueConflict lg localItem remoteItem type)
  else (localItem, lg)

/-! ## Collection merge (`mergeCollection`, `sync-manager.js:401-424`) -/

/-- `local.forEach(item => merged.set(item.id, item))`: seed the map with
all local items. -/
def seedMap (m : List (String × Record)) (localList : List Record) :
    List (String × Record) :=
  localList.foldl (fun acc item => objSet acc item.id item) m

/-- One iteration of `remote.forEach(...)`: insert a remote-only item, or
resolve the conflict with the local counterpart. -/
def mergeStep (strategy type : String)
    (acc : List (String × Record) × ConflictLog) (remoteItem : Record) :
    List (String × Record) × ConflictLog :=
  match objGet? acc.1 remoteItem.id with
  | none => (objSet acc.1 remoteItem.id remoteItem, acc.2)
  | some localItem =>
    let r := resolveConflict strategy acc.2 localItem remoteItem type
    (objSet acc.1 remoteItem.id r.1, r.2)

/-- `mergeCollection(local, remote, type)`: build a map keyed by id seeded
with the local records, fold the remote records in, return the values of
the map (with the threaded conflict log). -/
def mergeCollection (strategy : String) (lg : ConflictLog)
    (localList remoteList : List Record) (type : String) :
    List Record × ConflictLog :=
  let fin := remoteList.foldl (mergeStep strategy type) (seedMap [] localList, lg)
  (objValues fin.1, fin.2)

/-! ## Snapshots and `mergeData` (`sync-manager.js:285-308, 362-396`) -/

/-- The eleven synchronized collections of `getLocalData` /
`mergeData.dataTypes`. -/
structure Collections where
  transactions : List Record
  budgets : List Record
  savingsGoals : List Record
  billReminders : List Record
  accounts : List Record
  investments : List Record
  shoppingLists : List Record
  familyTasks : List Record
  sharedNotes : List Record
  settings : List Record
  activityFeed : List Record
deriving DecidableEq, Repr

/-- A full sync snapshot: every collection, the vector clock, the
`lastModified` stamp and the producing member. -/
structure Snapshot where
  colls : Collections
  vectorClock : List (String × Nat)
  lastModified : Nat
  memberCode : String
deriving DecidableEq, Repr

/-- The `for (const type of dataTypes)` loop of `mergeData`: merge the
eleven collections in order, threading the conflict log. -/
def mergeCollections (strategy : String) (lg : ConflictLog)
    (localColls remoteColls : Collections) : Collections × ConflictLog :=
  let c1 := mergeCollection strategy lg localColls.transactions remoteColls.transactions "transactions"
  let c2 := mergeCollection strategy c1.2 localColls.budgets remoteColls.budgets "budgets"
  let c3 := mergeCollection strategy c2.2 localColls.savingsGoals remoteColls.savingsGoals "savingsGoals"
  let c4 := mergeCollection strategy c3.2 localColls.billReminders remoteColls.billReminders "billReminders"
  let c5 := mergeCollection strategy c4.2 localColls.accounts remoteColls.accounts "accounts"
  let c6 := mergeCollection strategy c5.2 localColls.investments remoteColls.investments "investments"
  let c7 := mergeCollection strategy c6.2 localColls.shoppingLists remoteColls.shoppingLists "shoppingLists"
  let c8 := mergeCollection strategy c7.2 localColls.familyTasks remoteColls.familyTasks "familyTasks"
  let c9 := mergeCollection strategy c8.2 localColls.sharedNotes remoteColls.sharedNotes "sharedNotes"
  let c10 := mergeCollection strategy c9.2 localColls.settings remoteColls.settings "settings"
  let c11 := mergeCollection strategy c10.2 localColls.activityFeed remoteColls.activityFeed "activityFeed"
  ({ transactions := c1.1, budgets := c2.1, savingsGoals := c3.1,
     billReminders := c4.1, accounts := c5.1, investments := c6.1,
     shoppingLists := c7.1, familyTasks := c8.1, sharedNotes := c9.1,
     settings := c10.1, activityFeed := c11.1 }, c11.2)

/-- `mergeData(localData, remoteData)` (`sync-manager.js:362-396`): with
no remote data the merge returns the local snapshot unchanged; otherwise
merge the vector clocks (the `Object.entries(remoteData.vectorClock)`
loop), merge every collection, and stamp `lastModified = now`.  `now` is
the `new Date().toISOString()` instant, passed explicitly. -/
def mergeData (strategy : String) (lg : ConflictLog) (localData : Snapshot)
    (remoteData : Option Snapshot) (now : Nat) : Snapshot × ConflictLog :=
  match remoteData with
  | none => (localData, lg)
  | some remote =>
    let vc := mergeClocks localData.vectorClock remote.vectorClock
    let mc := mergeCollections strategy lg localData.colls remote.colls
    ({ colls := mc.1, vectorClock := vc, lastModified := now,
       memberCode := localData.memberCode }, mc.2)

/-! ## Remote fetch (`getRemoteData`, `sync-manager.js:313-357`) -/

/-- The JSON document parsed from the content of the gist file.  `uploadData`
spreads the plaintext snapshot into the wrapper (`{ ...data, encrypted:
true, data: <ciphertext> }`), so a parsed document carries the snapshot
fields plus the `encrypted` flag and the ciphertext `data` field. -/
structure ParsedDoc where
  fields : Snapshot
  encrypted : Bool
  payload : Option String
deriving Repr

/-- Outcome of `fetch` + `response.json()` + the `gist.files?.[...]
?.content` projection. -/
inductive FetchOutcome
  | fetchError
  | httpNotOk (status : Nat)
  | gotGist (content : Option String)
deriving Repr

/-- `getRemoteData()` with its async effects made explicit: the fetch
outcome, `JSON.parse` (`none` = throws), and `SecurityManager.decrypt`
(`none` = throws).  Every failure path is caught and collapsed to `null`
(`none`). -/
def getRemoteData (gistId : Option String) (familyCode : Option String)
    (fetch : FetchOutcome) (parse : String → Option ParsedDoc)
    (decrypt : Option String → Option Snapshot) : Option Snapshot :=
  match gistId with
  | none => none
  | some _ =>
    match fetch with
    | .fetchError => none
    | .httpNotOk _ => none
    | .gotGist none => none
    | .gotGist (some content) =>
      match parse content with
      | none => none
      | some parsed =>
        if parsed.encrypted && familyCode.isSome then decrypt parsed.payload
        else some parsed.fields

/-! ## Operation queue and orchestrator
(`queueOperation` / `processSyncQueue` / `syncNow`,
`sync-manager.js:143-280`) -/

/-- A queued operation (`queueItem`, `sync-manager.js:144-151`); `error`
and `retryCount` start out absent (JS `undefined`). -/
structure QueueOp where
  id : String
  timestamp : Nat
  memberCode : String
  payload : String
  vectorClock : List (String × Nat)
  status : String
  error : Option String
  retryCount : Option Nat
deriving DecidableEq, Repr

/-- The mutable fields of `EnhancedSyncManager`, together with the two
durable external stores it drives: the IndexedDB collections
(`localStore`) and the plaintext content of the remote gist document
(`remoteDoc`). -/
structure MgrState where
  syncInProgress : Bool
  conflictResolutionStrategy : String
  vectorClock : List (String × Nat)
  syncQueue : List QueueOp
  conflictLog : ConflictLog
  memberCode : String
  gistId : Option String
  localStore : Collections
  remoteDoc : Option Snapshot
  lastSyncTime : Option Nat
  syncStatus : String
deriving DecidableEq, Repr

/-- Processing of one pending operation inside the `processSyncQueue`
loop (`sync-manager.js:178-200`): `syncOperation` bumps the own
clock counter of the member and stamps the clock onto the operation, then the
transmission attempt either succeeds (operation removed from the queue)
or fails (status `failed`, failure reason recorded, `retryCount`
incremented, and the operation dropped once `retryCount > 3`). -/
def processOp (transmit : QueueOp → Except String Unit) (st : MgrState)
    (op : QueueOp) : MgrState :=
  let vc := objSet st.vectorClock st.memberCode
    (vcGet st.vectorClock st.memberCode + 1)
  let op := { op with vectorClock := vc }
  let st := { st with vectorClock := vc }
  match transmit op with
  | .ok _ =>
    { st with syncQueue := st.syncQueue.filter (fun item => item.id != op.id) }
  | .error e =>
    let op' := { op with
      status := "failed"
      error := some e
      retryCount := some (op.retryCount.getD 0 + 1) }
    let q := st.syncQueue.map (fun item => if item.id = op.id then op' else item)
    if op'.retryCount.getD 0 > 3 then
      { st with syncQueue := q.filter (fun item => item.id != op.id) }
    else { st with syncQueue := q }

/-- `processSyncQueue()` (`sync-manager.js:169-205`): no-op when the
queue is empty or a drain/sync is already in progress; otherwise set the
guard, take the ops whose status is `pending`, process each in order,
and clear the guard. -/
def processSyncQueue (st : MgrState)
    (transmit : QueueOp → Except String Unit) : MgrState :=
  if st.syncQueue.length = 0 ∨ st.syncInProgress then st
  else
    let st1 := { st with syncInProgress := true }
    let pendingOps := st1.syncQueue.filter (fun op => op.status == "pending")
    let st2 := pendingOps.foldl (processOp transmit) st1
    { st2 with syncInProgress := false }

/-- `queueOperation(operation)` (`sync-manager.js:143-164`): build the
queue item (fresh id and timestamp passed explicitly), push it, persist
it (`saveResult` is the IndexedDB write outcome — a rejection propagates
to the caller), then attempt an immediate drain when online and idle. -/
def queueOperation (st : MgrState) (opId : String) (now : Nat)
    (payload : String) (saveResult : Except String Unit) (online : Bool)
    (transmit : QueueOp → Except String Unit) :
    MgrState × Except String Unit :=
  let queueItem : QueueOp :=
    { id := opId, timestamp := now, memberCode := st.memberCode,
      payload := payload, vectorClock := st.vectorClock,
      status := "pending", error := none, retryCount := none }
  let st1 := { st with syncQueue := st.syncQueue ++ [queueItem] }
  match saveResult with
  | .error e => (st1, .error e)
  | .ok _ =>
    if online && !st1.syncInProgress then (processSyncQueue st1 transmit, .ok ())
    else (st1, .ok ())

/-- `getLocalData()` (`sync-manager.js:285-308`): export every collection
from the store plus the live vector clock, `lastModified = now` and the
member code. -/
def getLocalData (st : MgrState) (now : Nat) : Snapshot :=
  { colls := st.localStore, vectorClock := st.vectorClock,
    lastModified := now, memberCode := st.memberCode }

/-- The async effect outcomes one `syncNow()` cycle can observe. -/
structure SyncEffects where
  online : Bool
  now : Nat
  fetchOk : Bool
  transmit : QueueOp → Except String Unit
  saveResult : Except String Unit
  uploadResult : Except String Unit

/-- The body of the `try` block of `syncNow` (`sync-manager.js:239-269`):
drain the queue (a no-op here — the in-progress guard is already set),
read the local snapshot, fetch the remote one when a gist is configured
(`fetchOk = false` abstracts any caught failure
path of `getRemoteData`, which all yield `null`), merge, save locally, upload.  The final
`Except` is the first escaping rejection; state mutations made before a
rejection persist (they were in-place mutations of the manager and the
stores). -/
def syncCycle (st : MgrState) (eff : SyncEffects) :
    MgrState × Except String Unit :=
  let stq := processSyncQueue st eff.transmit
  let localData := getLocalData stq eff.now
  let remoteData :=
    if stq.gistId.isSome then (if eff.fetchOk then stq.remoteDoc else none)
    else none
  let md := mergeData stq.conflictResolutionStrategy stq.conflictLog localData
    remoteData eff.now
  let st2 := { stq with vectorClock := md.1.vectorClock, conflictLog := md.2 }
  match eff.saveResult with
  | .error e => (st2, .error e)
  | .ok _ =>
    let st3 := { st2 with localStore := md.1.colls }
    match st3.gistId with
    | some _ =>
      match eff.uploadResult with
      | .error e => (st3, .error e)
      | .ok _ =>
        ({ st3 with remoteDoc := some md.1, lastSyncTime := some eff.now },
         .ok ())
    | none => ({ st3 with lastSyncTime := some eff.now }, .ok ())

/-- `syncNow()` (`sync-manager.js:228-280`): re-entrant or offline calls
return immediately; otherwise the guard is set, the cycle runs, and the
`catch`/`finally` blocks turn ANY cycle failure into a resolved call with
`syncStatus = "error"` and the guard cleared — the returned promise never
rejects. -/
def syncNow (st : MgrState) (eff : SyncEffects) :
    MgrState × Except String Unit :=
  if st.syncInProgress || !eff.online then (st, .ok ())
  else
    let st1 := { st with syncInProgress := true, syncStatus := "syncing" }
    match syncCycle st1 eff with
    | (st2, .ok _) =>
      ({ st2 with syncStatus := "success", syncInProgress := false }, .ok ())
    | (st2, .error _) =>
      ({ st2 with syncStatus := "error", syncInProgress := false }, .ok ())

/-- Uniqueness of record ids within every collection of a snapshot (the
data-model invariant the spec states for records). -/
abbrev CollsNodup (c : Collections) : Prop :=
  (c.transactions.map Record.id).Nodup ∧ (c.budgets.map Record.id).Nodup ∧
  (c.savingsGoals.map Record.id).Nodup ∧
  (c.billReminders.map Record.id).Nodup ∧
  (c.accounts.map Record.id).Nodup ∧ (c.investments.map Record.id).Nodup ∧
  (c.shoppingLists.map Record.id).Nodup ∧
  (c.familyTasks.map Record.id).Nodup ∧
  (c.sharedNotes.map Record.id).Nodup ∧ (c.settings.map Record.id).Nodup ∧
  (c.activityFeed.map Record.id).Nodup

/-! ## Concrete test fixtures (used by witnesses and counterexamples) -/

def recA : Record :=
  { id := "t1", updatedAt := some 100, createdAt := none,
    payload := "amount:10" }

def recB : Record :=
  { id := "t1", updatedAt := some 100, createdAt := none,
    payload := "amount:20" }

def recC : Record :=
  { id := "t2", updatedAt := some 50, createdAt := none,
    payload := "amount:5" }

def collsEmpty : Collections := ⟨[], [], [], [], [], [], [], [], [], [], []⟩

def snapR : Snapshot :=
  { colls := { collsEmpty with transactions := [recC] },
    vectorClock := [("alice", 2)], lastModified := 40,
    memberCode := "alice" }

def opA : QueueOp :=
  { id := "op1", timestamp := 10, memberCode := "bob",
    payload := "addTransaction", vectorClock := [("bob", 0)],
    status := "pending", error := none, retryCount := none }

def failTransmit : QueueOp → Except String Unit :=
  fun _ => Except.error "network error"

def okTransmit : QueueOp → Except String Unit := fun _ => Except.ok ()

def stBase : MgrState :=
  { syncInProgress := false,
    conflictResolutionStrategy := "last-write-wins",
    vectorClock := [("bob", 0)], syncQueue := [], conflictLog := [],
    memberCode := "bob", gistId := some "gist1",
    localStore := { collsEmpty with transactions := [recA] },
    remoteDoc := some snapR, lastSyncTime := none, syncStatus := "idle" }

def stQueue : MgrState := { stBase with syncQueue := [opA] }

def stBusy : MgrState := { stBase with syncInProgress := true }

def effOk : SyncEffects :=
  { online := true, now := 1000, fetchOk := true, transmit := okTransmit,
    saveResult := .ok (), uploadResult := .ok () }

def effOk2 : SyncEffects := { effOk with now := 2000 }

def effSaveFail : SyncEffects := { effOk with saveResult := .error "disk full" }

/-! ## Association-map lemmas -/

theorem objKeys_append (m m' : List (String × α)) :
    objKeys (m ++ m') = objKeys m ++ objKeys m' := by
  simp [objKeys]

theorem mem_objKeys {m : List (String × α)} {k : String} :
    k ∈ objKeys m ↔ ∃ v, (k, v) ∈ m := by
  constructor
  · intro h
    obtain ⟨⟨a, b⟩, hp, hk⟩ := List.mem_map.mp h
    exact ⟨b, by simpa [← hk] using hp⟩
  · rintro ⟨v, hv⟩
    exact List.mem_map.mpr ⟨(k, v), hv, rfl⟩

theorem objHas_iff (m : List (String × α)) (k : String) :
    objHas m k = true ↔ k ∈ objKeys m := by
  rw [mem_objKeys]
  constructor
  · intro h
    obtain ⟨⟨a, b⟩, hp, hk⟩ := List.any_eq_true.mp h
    have ha : a = k := by simpa using hk
    exact ⟨b, by simpa [← ha] using hp⟩
  · rintro ⟨v, hv⟩
    exact List.any_eq_true.mpr ⟨(k, v), hv, by simp⟩

theorem objGet?_eq_none (m : List (String × α)) (k : String) :
    objGet? m k = none ↔ k ∉ objKeys m := by
  rw [objGet?, Option.map_eq_none', List.find?_eq_none, mem_objKeys]
  constructor
  · intro h hc
    obtain ⟨v, hv⟩ := hc
    exact absurd (by simp : (((k, v) : String × α).1 == k) = true)
      (by simpa using h (k, v) hv)
  · intro h p hp
    simp only [beq_iff_eq]
    intro hk
    exact h ⟨p.2, by simpa [← hk] using hp⟩

theorem objGet?_cons (q : String × α) (m : List (String × α)) (k : String) :
    objGet? (q :: m) k = if q.1 = k then some q.2 else objGet? m k := by
  by_cases h : q.1 = k
  · simp [objGet?, List.find?_cons, h]
  · simp [objGet?, List.find?_cons, h]

theorem objHas_cons (q : String × α) (m : List (String × α)) (k : String) :
    objHas (q :: m) k = (q.1 == k || objHas m k) := by
  simp [objHas, List.any_cons]

theorem objGet?_mem {m : List (String × α)} {k : String} {v : α}
    (h : objGet? m k = some v) : (k, v) ∈ m := by
  induction m with
  | nil => simp [objGet?] at h
  | cons q m ih =>
    obtain ⟨a, b⟩ := q
    rw [objGet?_cons] at h
    by_cases hq : a = k
    · rw [if_pos hq] at h
      obtain rfl : b = v := by injection h
      subst hq
      exact List.mem_cons_self _ _
    · rw [if_neg hq] at h
      exact List.mem_cons_of_mem _ (ih h)

theorem objGet?_of_mem {m : List (String × α)} {k : String} {v : α}
    (hnd : (objKeys m).Nodup) (h : (k, v) ∈ m) : objGet? m k = some v := by
  induction m with
  | nil => simp at h
  | cons q m ih =>
    simp only [objKeys, List.map_cons, List.nodup_cons] at hnd
    rw [objGet?_cons]
    rcases List.mem_cons.mp h with h1 | h1
    · rw [← h1]
      simp
    · have hk : k ∈ objKeys m := mem_objKeys.mpr ⟨v, h1⟩
      have hq : q.1 ≠ k := fun hq => hnd.1 (hq ▸ hk)
      rw [if_neg hq]
      exact ih hnd.2 h1

theorem eq_of_mem_nodup_keys {m : List (String × α)} {p p' : String × α}
    (hnd : (objKeys m).Nodup) (hp : p ∈ m) (hp' : p' ∈ m) (hk : p.1 = p'.1) :
    p = p' := by
  have h1 : objGet? m p.1 = some p.2 := objGet?_of_mem hnd hp
  have h2 : objGet? m p.1 = some p'.2 := by
    rw [hk]
    exact objGet?_of_mem hnd hp'
  have : p.2 = p'.2 := by
    rw [h1] at h2
    injection h2
  exact Prod.ext hk this

theorem objKeys_map_replace (m : List (String × α)) (k : String) (v : α) :
    objKeys (m.map (fun p => if p.1 == k then (k, v) else p)) = objKeys m := by
  simp only [objKeys, List.map_map]
  refine List.map_congr_left (fun p _ => ?_)
  by_cases h : p.1 = k
  · simp [h]
  · simp [h]

theorem objSet_cons_pos {q : String × α} {k : String} (h : q.1 = k)
    (m : List (String × α)) (v : α) :
    objSet (q :: m) k v =
      (k, v) :: m.map (fun p => if p.1 == k then (k, v) else p) := by
  have hh : objHas (q :: m) k = true := by
    simp [objHas, List.any_cons, h]
  simp only [objSet, hh, if_true, List.map_cons, h]
  simp [h]

theorem objSet_cons_neg {q : String × α} {k : String} (h : ¬ q.1 = k)
    (m : List (String × α)) (v : α) :
    objSet (q :: m) k v = q :: objSet m k v := by
  by_cases hm : objHas m k
  · have hh : objHas (q :: m) k = true := by
      simp [objHas_cons, hm]
    simp only [objSet, hh, if_true, hm, List.map_cons]
    simp [h]
  · have hh : objHas (q :: m) k = false := by
      simp [objHas_cons, h]
      simpa using hm
    simp only [objSet, hh, hm]
    simp

theorem objSet_append {m : List (String × α)} {k : String}
    (h : objHas m k = false) (v : α) : objSet m k v = m ++ [(k, v)] := by
  simp [objSet, h]

theorem objGet?_map_ne {k k' : String} (hne : k' ≠ k)
    (m : List (String × α)) (v : α) :
    objGet? (m.map (fun p => if p.1 == k then (k, v) else p)) k' =
      objGet? m k' := by
  induction m with
  | nil => rfl
  | cons q m ih =>
    obtain ⟨a, b⟩ := q
    rw [List.map_cons]
    by_cases h : a = k
    · rw [if_pos (show (((a, b) : String × α).1 == k) = true by simp [h]),
        objGet?_cons, objGet?_cons,
        if_neg (show ¬ ((k, v) : String × α).1 = k' from fun hh => hne hh.symm),
        if_neg (show ¬ ((a, b) : String × α).1 = k' from
          fun hh => hne (by rw [← hh, h]))]
      exact ih
    · rw [if_neg (by simpa using h), objGet?_cons, objGet?_cons, ih]

theorem objGet?_set_self (m : List (String × α)) (k : String) (v : α) :
    objGet? (objSet m k v) k = some v := by
  induction m with
  | nil =>
    rw [show objSet ([] : List (String × α)) k v = [(k, v)] from rfl,
      objGet?_cons, if_pos rfl]
  | cons q m ih =>
    by_cases h : q.1 = k
    · rw [objSet_cons_pos h, objGet?_cons, if_pos rfl]
    · rw [objSet_cons_neg h, objGet?_cons, if_neg h, ih]

theorem objGet?_set_other {k k' : String} (hne : k' ≠ k)
    (m : List (String × α)) (v : α) :
    objGet? (objSet m k v) k' = objGet? m k' := by
  induction m with
  | nil =>
    rw [show objSet ([] : List (String × α)) k v = [(k, v)] from rfl,
      objGet?_cons, if_neg (show ¬ ((k, v) : String × α).1 = k' from
        fun hh => hne hh.symm)]
  | cons q m ih =>
    by_cases h : q.1 = k
    · rw [objSet_cons_pos h, objGet?_cons,
        if_neg (show ¬ ((k, v) : String × α).1 = k' from fun hh => hne hh.symm),
        objGet?_map_ne hne, objGet?_cons,
        if_neg (show ¬ q.1 = k' from fun hh => hne (by rw [← hh, h]))]
    · rw [objSet_cons_neg h, objGet?_cons, objGet?_cons, ih]

theorem mem_objKeys_set (m : List (String × α)) (k : String) (v : α)
    (k' : String) :
    k' ∈ objKeys (objSet m k v) ↔ k' ∈ objKeys m ∨ k' = k := by
  by_cases h : objHas m k
  · simp only [objSet, h, if_true, objKeys_map_replace]
    constructor
    · exact Or.inl
    · rintro (h1 | rfl)
      · exact h1
      · exact (objHas_iff m k').mp h
  · rw [objSet_append (by simpa using h)]
    simp [objKeys]

theorem nodup_objKeys_set {m : List (String × α)} (k : String) (v : α)
    (hnd : (objKeys m).Nodup) : (objKeys (objSet m k v)).Nodup := by
  by_cases h : objHas m k
  · simpa only [objSet, h, if_true, objKeys_map_replace] using hnd
  · rw [objSet_append (by simpa using h), objKeys_append]
    have hk : k ∉ objKeys m := fun hh => h ((objHas_iff m k).mpr hh)
    refine List.Nodup.append hnd (List.nodup_singleton k) ?_
    intro x hx hx'
    rw [show objKeys [(k, v)] = [k] from rfl, List.mem_singleton] at hx'
    exact hk (hx' ▸ hx)

theorem mem_objSet_self (m : List (String × α)) (k : String) (v : α) :
    (k, v) ∈ objSet m k v := by
  by_cases h : objHas m k
  · simp only [objSet, h, if_true]
    obtain ⟨p, hp, hpk⟩ : ∃ p ∈ m, p.1 == k := by
      simpa [objHas, List.any_eq_true] using h
    exact List.mem_map.mpr ⟨p, hp, by simp [hpk]⟩
  · rw [objSet_append (by simpa using h)]
    simp

theorem mem_objSet_of_ne {m : List (String × α)} {p : String × α}
    {k : String} (v : α) (hp : p ∈ m) (hne : p.1 ≠ k) :
    p ∈ objSet m k v := by
  by_cases h : objHas m k
  · simp only [objSet, h, if_true]
    exact List.mem_map.mpr ⟨p, hp, by simp [hne]⟩
  · rw [objSet_append (by simpa using h)]
    exact List.mem_append_left _ hp

theorem mem_objSet_elim {m : List (String × α)} {p : String × α}
    {k : String} {v : α} (hp : p ∈ objSet m k v) :
    p ∈ m ∨ p = (k, v) := by
  by_cases h : objHas m k
  · simp only [objSet, h, if_true] at hp
    obtain ⟨q, hq, hfq⟩ := List.mem_map.mp hp
    by_cases hqk : q.1 = k
    · right
      rw [← hfq]
      simp [hqk]
    · left
      rw [← hfq]
      simpa [hqk] using hq
  · rw [objSet_append (by simpa using h)] at hp
    rcases List.mem_append.mp hp with h1 | h1
    · exact Or.inl h1
    · exact Or.inr (by simpa using h1)

theorem objSet_eq_self_of_mem {m : List (String × α)} {k : String} {v : α}
    (hnd : (objKeys m).Nodup) (hmem : (k, v) ∈ m) : objSet m k v = m := by
  have h : objHas m k = true :=
    (objHas_iff m k).mpr (mem_objKeys.mpr ⟨v, hmem⟩)
  simp only [objSet, h, if_true]
  have hcongr : ∀ p ∈ m,
      (if p.1 == k then (k, v) else p) = id p := by
    intro p hp
    by_cases hpk : p.1 = k
    · have hpv : p = (k, v) := eq_of_mem_nodup_keys hnd hp hmem hpk
      simp [hpv]
    · simp [hpk]
  rw [List.map_congr_left hcongr, List.map_id]

/-! ## Vector-clock lemmas -/

theorem objKeys_cons (q : String × α) (m : List (String × α)) :
    objKeys (q :: m) = q.1 :: objKeys m := rfl

theorem vcGet_nil (k : String) : vcGet [] k = 0 := rfl

theorem vcGet_eq_zero_of_not_mem {c : List (String × Nat)} {k : String}
    (h : k ∉ objKeys c) : vcGet c k = 0 := by
  rw [vcGet, (objGet?_eq_none c k).mpr h]
  rfl

theorem vcGet_of_mem {c : List (String × Nat)} {k : String} {v : Nat}
    (hnd : (objKeys c).Nodup) (h : (k, v) ∈ c) : vcGet c k = v := by
  rw [vcGet, objGet?_of_mem hnd h]
  rfl

theorem vcGet_cons (q : String × Nat) (c : List (String × Nat)) (k : String) :
    vcGet (q :: c) k = if q.1 = k then q.2 else vcGet c k := by
  rw [vcGet, objGet?_cons]
  by_cases h : q.1 = k
  · rw [if_pos h, if_pos h]
    rfl
  · rw [if_neg h, if_neg h]
    rfl

theorem vcGet_set_self (c : List (String × Nat)) (k : String) (v : Nat) :
    vcGet (objSet c k v) k = v := by
  rw [vcGet, objGet?_set_self]
  rfl

theorem vcGet_set_other {k k' : String} (hne : k' ≠ k)
    (c : List (String × Nat)) (v : Nat) :
    vcGet (objSet c k v) k' = vcGet c k' := by
  rw [vcGet, objGet?_set_other hne]
  rfl

theorem vcGet_mergeClockStep (acc : List (String × Nat)) (p : String × Nat)
    (k : String) :
    vcGet (mergeClockStep acc p) k =
      if k = p.1 then max (vcGet acc k) p.2 else vcGet acc k := by
  rw [mergeClockStep]
  by_cases hc : objHas acc p.1 = false ∨ vcGet acc p.1 = 0 ∨
      p.2 > vcGet acc p.1
  · rw [if_pos hc]
    by_cases hk : k = p.1
    · rw [if_pos hk, hk, vcGet_set_self]
      rcases hc with h | h | h
      · have hz : vcGet acc p.1 = 0 := vcGet_eq_zero_of_not_mem
          (fun hm => by simp [(objHas_iff acc p.1).mpr hm] at h)
        omega
      · omega
      · omega
    · rw [vcGet_set_other hk, if_neg hk]
  · rw [if_neg hc]
    push_neg at hc
    by_cases hk : k = p.1
    · subst hk
      rw [if_pos rfl]
      have := hc.2.2
      omega
    · rw [if_neg hk]

theorem mem_objKeys_mergeClockStep (acc : List (String × Nat))
    (p : String × Nat) (k : String) :
    k ∈ objKeys (mergeClockStep acc p) ↔ k ∈ objKeys acc ∨ k = p.1 := by
  rw [mergeClockStep]
  by_cases hc : objHas acc p.1 = false ∨ vcGet acc p.1 = 0 ∨
      p.2 > vcGet acc p.1
  · rw [if_pos hc]
    exact mem_objKeys_set acc p.1 p.2 k
  · rw [if_neg hc]
    push_neg at hc
    have hmem : p.1 ∈ objKeys acc := by
      apply (objHas_iff acc p.1).mp
      cases h : objHas acc p.1
      · exact absurd h hc.1
      · rfl
    constructor
    · exact Or.inl
    · rintro (h | rfl)
      · exact h
      · exact hmem

theorem nodup_objKeys_mergeClockStep {acc : List (String × Nat)}
    (p : String × Nat) (hnd : (objKeys acc).Nodup) :
    (objKeys (mergeClockStep acc p)).Nodup := by
  rw [mergeClockStep]
  by_cases hc : objHas acc p.1 = false ∨ vcGet acc p.1 = 0 ∨
      p.2 > vcGet acc p.1
  · rw [if_pos hc]
    exact nodup_objKeys_set p.1 p.2 hnd
  · rw [if_neg hc]
    exact hnd

theorem vcGet_mergeClocks (a b : List (String × Nat))
    (hB : (objKeys b).Nodup) (k : String) :
    vcGet (mergeClocks a b) k = max (vcGet a k) (vcGet b k) := by
  induction b generalizing a with
  | nil =>
    rw [show mergeClocks a [] = a from rfl, vcGet_nil]
    omega
  | cons p b ih =>
    rw [objKeys_cons, List.nodup_cons] at hB
    rw [show mergeClocks a (p :: b) = mergeClocks (mergeClockStep a p) b
        from rfl,
      ih _ hB.2, vcGet_mergeClockStep, vcGet_cons]
    by_cases hk : k = p.1
    · subst hk
      rw [if_pos rfl, if_pos rfl, vcGet_eq_zero_of_not_mem hB.1]
      omega
    · rw [if_neg hk, if_neg (fun h => hk h.symm)]

theorem mem_objKeys_mergeClocks (a b : List (String × Nat)) (k : String) :
    k ∈ objKeys (mergeClocks a b) ↔ k ∈ objKeys a ∨ k ∈ objKeys b := by
  induction b generalizing a with
  | nil =>
    rw [show mergeClocks a [] = a from rfl]
    simp [objKeys]
  | cons p b ih =>
    rw [show mergeClocks a (p :: b) = mergeClocks (mergeClockStep a p) b
        from rfl,
      ih, mem_objKeys_mergeClockStep, objKeys_cons]
    simp only [List.mem_cons]
    tauto

theorem nodup_objKeys_mergeClocks {a : List (String × Nat)}
    (b : List (String × Nat)) (hA : (objKeys a).Nodup) :
    (objKeys (mergeClocks a b)).Nodup := by
  induction b generalizing a with
  | nil => exact hA
  | cons p b ih =>
    exact ih (nodup_objKeys_mergeClockStep p hA)

theorem mergeClockStep_eq_self {a : List (String × Nat)} {p : String × Nat}
    (hnd : (objKeys a).Nodup) (hp : p ∈ a) : mergeClockStep a p = a := by
  rw [mergeClockStep]
  by_cases hc : objHas a p.1 = false ∨ vcGet a p.1 = 0 ∨ p.2 > vcGet a p.1
  · rw [if_pos hc]
    exact objSet_eq_self_of_mem hnd (Prod.mk.eta.symm ▸ hp)
  · rw [if_neg hc]

theorem mergeClocks_self {a : List (String × Nat)}
    (hA : (objKeys a).Nodup) : mergeClocks a a = a := by
  have aux : ∀ l : List (String × Nat), (∀ p ∈ l, p ∈ a) →
      l.foldl mergeClockStep a = a := by
    intro l
    induction l with
    | nil => intro _; rfl
    | cons p l ih =>
      intro hl
      rw [List.foldl_cons, mergeClockStep_eq_self hA (hl p (by simp))]
      exact ih (fun q hq => hl q (List.mem_cons_of_mem _ hq))
  exact aux a (fun _ h => h)

/-! ## Conflict-resolution and collection-merge lemmas -/

theorem resolveConflict_fst_mem (s : String) (lg : ConflictLog)
    (a b : Record) (τ : String) :
    (resolveConflict s lg a b τ).1 = a ∨ (resolveConflict s lg a b τ).1 = b := by
  rw [resolveConflict]
  split_ifs with h1 h2 h3 h4
  · by_cases hlt : recordTime a > recordTime b
    · left
      simp [hlt]
    · right
      simp [hlt]
  · right
    rfl
  · left
    rfl
  · left
    rfl
  · left
    rfl

theorem resolveConflict_self_fst (s : String) (lg : ConflictLog)
    (a : Record) (τ : String) : (resolveConflict s lg a a τ).1 = a := by
  rcases resolveConflict_fst_mem s lg a a τ with h | h <;> exact h

theorem mem_objValues_set {m : List (String × α)} {w : α} {k : String}
    {v : α} (h : w ∈ objValues (objSet m k v)) :
    w ∈ objValues m ∨ w = v := by
  obtain ⟨p, hp, hpv⟩ := List.mem_map.mp h
  rcases mem_objSet_elim hp with h1 | h1
  · exact Or.inl (List.mem_map.mpr ⟨p, h1, hpv⟩)
  · right
    rw [← hpv, h1]

theorem mem_objKeys_seedMap (L : List Record) (m : List (String × Record))
    (k : String) :
    k ∈ objKeys (seedMap m L) ↔ k ∈ objKeys m ∨ k ∈ L.map Record.id := by
  induction L generalizing m with
  | nil => simp [seedMap]
  | cons x L ih =>
    rw [seedMap, List.foldl_cons, show List.foldl
        (fun acc item => objSet acc item.id item) (objSet m x.id x) L =
        seedMap (objSet m x.id x) L from rfl, ih, mem_objKeys_set,
      List.map_cons, List.mem_cons]
    tauto

theorem nodup_objKeys_seedMap (L : List Record)
    {m : List (String × Record)} (hnd : (objKeys m).Nodup) :
    (objKeys (seedMap m L)).Nodup := by
  induction L generalizing m with
  | nil => exact hnd
  | cons x L ih =>
    rw [seedMap, List.foldl_cons]
    exact ih (nodup_objKeys_set x.id x hnd)

theorem consistent_seedMap (L : List Record) {m : List (String × Record)}
    (hm : ∀ p ∈ m, Record.id p.2 = p.1) :
    ∀ p ∈ seedMap m L, Record.id p.2 = p.1 := by
  induction L generalizing m with
  | nil => exact hm
  | cons x L ih =>
    rw [seedMap, List.foldl_cons]
    refine ih (fun p hp => ?_)
    rcases mem_objSet_elim hp with h1 | h1
    · exact hm p h1
    · rw [h1]

theorem mem_objValues_seedMap (L : List Record)
    {m : List (String × Record)} {v : Record}
    (h : v ∈ objValues (seedMap m L)) : v ∈ objValues m ∨ v ∈ L := by
  induction L generalizing m with
  | nil => exact Or.inl h
  | cons x L ih =>
    rw [seedMap, List.foldl_cons] at h
    rcases ih h with h1 | h1
    · rcases mem_objValues_set h1 with h2 | h2
      · exact Or.inl h2
      · exact Or.inr (h2 ▸ List.mem_cons_self x L)
    · exact Or.inr (List.mem_cons_of_mem x h1)

theorem mem_seedMap_of_not_mem (L : List Record)
    {m : List (String × Record)} {p : String × Record} (hp : p ∈ m)
    (hk : p.1 ∉ L.map Record.id) : p ∈ seedMap m L := by
  induction L generalizing m with
  | nil => exact hp
  | cons x L ih =>
    rw [List.map_cons, List.mem_cons, not_or] at hk
    rw [seedMap, List.foldl_cons]
    exact ih (mem_objSet_of_ne x hp hk.1) hk.2

theorem mem_seedMap_self {L : List Record} {rec : Record} (hr : rec ∈ L)
    (hnd : (L.map Record.id).Nodup) (m : List (String × Record)) :
    (rec.id, rec) ∈ seedMap m L := by
  induction L generalizing m with
  | nil => simp at hr
  | cons x L ih =>
    rw [List.map_cons, List.nodup_cons] at hnd
    rw [seedMap, List.foldl_cons]
    rcases List.mem_cons.mp hr with h1 | h1
    · subst h1
      exact mem_seedMap_of_not_mem L (mem_objSet_self m rec.id rec) hnd.1
    · exact ih h1 hnd.2 _

theorem seedMap_eq_append {L : List Record} {m : List (String × Record)}
    (hfresh : ∀ r ∈ L, Record.id r ∉ objKeys m)
    (hnd : (L.map Record.id).Nodup) :
    seedMap m L = m ++ L.map (fun r => (r.id, r)) := by
  induction L generalizing m with
  | nil => simp [seedMap]
  | cons x L ih =>
    rw [List.map_cons, List.nodup_cons] at hnd
    rw [seedMap, List.foldl_cons,
      objSet_append (by
        cases h : objHas m x.id
        · rfl
        · exact absurd ((objHas_iff m x.id).mp h)
            (hfresh x (List.mem_cons_self x L))),
      show List.foldl (fun acc item => objSet acc item.id item)
        (m ++ [(x.id, x)]) L = seedMap (m ++ [(x.id, x)]) L from rfl,
      ih (fun r hr => ?_) hnd.2, List.map_cons, List.append_assoc,
      List.singleton_append]
    rw [objKeys_append]
    intro hmem
    rcases List.mem_append.mp hmem with h1 | h1
    · exact hfresh r (List.mem_cons_of_mem x hr) h1
    · rw [show objKeys [(x.id, x)] = [x.id] from rfl,
        List.mem_singleton] at h1
      exact hnd.1 (h1 ▸ List.mem_map_of_mem Record.id hr)

theorem mem_objKeys_mergeFold (s τ : String) (R : List Record) :
    ∀ (m : List (String × Record)) (lg : ConflictLog) (k : String),
    k ∈ objKeys ((R.foldl (mergeStep s τ) (m, lg)).1) ↔
      k ∈ objKeys m ∨ k ∈ R.map Record.id := by
  induction R with
  | nil => simp
  | cons x R ih =>
    intro m lg k
    cases h : objGet? m x.id with
    | none =>
      rw [List.foldl_cons, show mergeStep s τ (m, lg) x =
          (objSet m x.id x, lg) by rw [mergeStep]; rw [h],
        ih, mem_objKeys_set, List.map_cons, List.mem_cons]
      tauto
    | some localItem =>
      rw [List.foldl_cons, show mergeStep s τ (m, lg) x =
          (objSet m x.id (resolveConflict s lg localItem x τ).1,
           (resolveConflict s lg localItem x τ).2) by
          rw [mergeStep]; rw [h],
        ih, mem_objKeys_set, List.map_cons, List.mem_cons]
      tauto

theorem nodup_objKeys_mergeFold (s τ : String) (R : List Record) :
    ∀ (m : List (String × Record)) (lg : ConflictLog),
    (objKeys m).Nodup → (objKeys ((R.foldl (mergeStep s τ) (m, lg)).1)).Nodup := by
  induction R with
  | nil => exact fun m lg h => h
  | cons x R ih =>
    intro m lg hnd
    cases h : objGet? m x.id with
    | none =>
      rw [List.foldl_cons, show mergeStep s τ (m, lg) x =
          (objSet m x.id x, lg) by rw [mergeStep]; rw [h]]
      exact ih _ _ (nodup_objKeys_set x.id x hnd)
    | some localItem =>
      rw [List.foldl_cons, show mergeStep s τ (m, lg) x =
          (objSet m x.id (resolveConflict s lg localItem x τ).1,
           (resolveConflict s lg localItem x τ).2) by
          rw [mergeStep]; rw [h]]
      exact ih _ _ (nodup_objKeys_set x.id _ hnd)

theorem consistent_mergeFold (s τ : String) (R : List Record) :
    ∀ (m : List (String × Record)) (lg : ConflictLog),
    (∀ p ∈ m, Record.id p.2 = p.1) →
    ∀ p ∈ (R.foldl (mergeStep s τ) (m, lg)).1, Record.id p.2 = p.1 := by
  induction R with
  | nil => exact fun m lg h => h
  | cons x R ih =>
    intro m lg hm
    cases h : objGet? m x.id with
    | none =>
      rw [List.foldl_cons, show mergeStep s τ (m, lg) x =
          (objSet m x.id x, lg) by rw [mergeStep]; rw [h]]
      refine ih _ _ (fun p hp => ?_)
      rcases mem_objSet_elim hp with h1 | h1
      · exact hm p h1
      · rw [h1]
    | some localItem =>
      rw [List.foldl_cons, show mergeStep s τ (m, lg) x =
          (objSet m x.id (resolveConflict s lg localItem x τ).1,
           (resolveConflict s lg localItem x τ).2) by
          rw [mergeStep]; rw [h]]
      refine ih _ _ (fun p hp => ?_)
      rcases mem_objSet_elim hp with h1 | h1
      · exact hm p h1
      · rw [h1]
        rcases resolveConflict_fst_mem s lg localItem x τ with h2 | h2
        · rw [h2]
          exact hm (x.id, localItem) (objGet?_mem h)
        · rw [h2]

theorem mem_objValues_mergeFold (s τ : String) (R : List Record) :
    ∀ (m : List (String × Record)) (lg : ConflictLog) (v : Record),
    v ∈ objValues ((R.foldl (mergeStep s τ) (m, lg)).1) →
      v ∈ objValues m ∨ v ∈ R := by
  induction R with
  | nil => exact fun m lg v h => Or.inl h
  | cons x R ih =>
    intro m lg v hv
    cases h : objGet? m x.id with
    | none =>
      rw [List.foldl_cons, show mergeStep s τ (m, lg) x =
          (objSet m x.id x, lg) by rw [mergeStep]; rw [h]] at hv
      rcases ih _ _ _ hv with h1 | h1
      · rcases mem_objValues_set h1 with h2 | h2
        · exact Or.inl h2
        · exact Or.inr (h2 ▸ List.mem_cons_self x R)
      · exact Or.inr (List.mem_cons_of_mem x h1)
    | some localItem =>
      rw [List.foldl_cons, show mergeStep s τ (m, lg) x =
          (objSet m x.id (resolveConflict s lg localItem x τ).1,
           (resolveConflict s lg localItem x τ).2) by
          rw [mergeStep]; rw [h]] at hv
      rcases ih _ _ _ hv with h1 | h1
      · rcases mem_objValues_set h1 with h2 | h2
        · exact Or.inl h2
        · rcases resolveConflict_fst_mem s lg localItem x τ with h3 | h3
          · rw [h3] at h2
            exact Or.inl (h2 ▸ List.mem_map.mpr
              ⟨(x.id, localItem), objGet?_mem h, rfl⟩)
          · rw [h3] at h2
            exact Or.inr (h2 ▸ List.mem_cons_self x R)
      · exact Or.inr (List.mem_cons_of_mem x h1)

theorem mem_mergeFold_of_not_mem (s τ : String) (R : List Record) :
    ∀ (m : List (String × Record)) (lg : ConflictLog) (p : String × Record),
    p ∈ m → p.1 ∉ R.map Record.id →
      p ∈ (R.foldl (mergeStep s τ) (m, lg)).1 := by
  induction R with
  | nil => exact fun m lg p hp _ => hp
  | cons x R ih =>
    intro m lg p hp hk
    rw [List.map_cons, List.mem_cons, not_or] at hk
    cases h : objGet? m x.id with
    | none =>
      rw [List.foldl_cons, show mergeStep s τ (m, lg) x =
          (objSet m x.id x, lg) by rw [mergeStep]; rw [h]]
      exact ih _ _ _ (mem_objSet_of_ne x hp hk.1) hk.2
    | some localItem =>
      rw [List.foldl_cons, show mergeStep s τ (m, lg) x =
          (objSet m x.id (resolveConflict s lg localItem x τ).1,
           (resolveConflict s lg localItem x τ).2) by
          rw [mergeStep]; rw [h]]
      exact ih _ _ _ (mem_objSet_of_ne _ hp hk.1) hk.2

theorem mem_mergeFold_self (s τ : String) (R : List Record) :
    ∀ (m : List (String × Record)) (lg : ConflictLog) (rec : Record),
    rec ∈ R → (R.map Record.id).Nodup → rec.id ∉ objKeys m →
      (rec.id, rec) ∈ (R.foldl (mergeStep s τ) (m, lg)).1 := by
  induction R with
  | nil => simp
  | cons x R ih =>
    intro m lg rec hr hnd hk
    rw [List.map_cons, List.nodup_cons] at hnd
    rcases List.mem_cons.mp hr with h1 | h1
    · subst h1
      have h : objGet? m rec.id = none := (objGet?_eq_none m rec.id).mpr hk
      rw [List.foldl_cons, show mergeStep s τ (m, lg) rec =
          (objSet m rec.id rec, lg) by rw [mergeStep]; rw [h]]
      exact mem_mergeFold_of_not_mem s τ R _ _ _
        (mem_objSet_self m rec.id rec) hnd.1
    · have hne : rec.id ≠ x.id := by
        intro hh
        exact hnd.1 (hh ▸ List.mem_map_of_mem Record.id h1)
      cases h : objGet? m x.id with
      | none =>
        rw [List.foldl_cons, show mergeStep s τ (m, lg) x =
            (objSet m x.id x, lg) by rw [mergeStep]; rw [h]]
        refine ih _ _ _ h1 hnd.2 (fun hmem => ?_)
        rcases (mem_objKeys_set m x.id x rec.id).mp hmem with h2 | h2
        · exact hk h2
        · exact hne h2
      | some localItem =>
        rw [List.foldl_cons, show mergeStep s τ (m, lg) x =
            (objSet m x.id (resolveConflict s lg localItem x τ).1,
             (resolveConflict s lg localItem x τ).2) by
            rw [mergeStep]; rw [h]]
        refine ih _ _ _ h1 hnd.2 (fun hmem => ?_)
        rcases (mem_objKeys_set m x.id _ rec.id).mp hmem with h2 | h2
        · exact hk h2
        · exact hne h2

theorem mergeFold_fixed (s τ : String) (l : List Record) :
    ∀ (M : List (String × Record)) (lg : ConflictLog),
    (objKeys M).Nodup → (∀ r ∈ l, (Record.id r, r) ∈ M) →
      (l.foldl (mergeStep s τ) (M, lg)).1 = M := by
  induction l with
  | nil => exact fun M lg _ _ => rfl
  | cons x l ih =>
    intro M lg hnd hl
    have hx : (x.id, x) ∈ M := hl x (List.mem_cons_self x l)
    have h : objGet? M x.id = some x := objGet?_of_mem hnd hx
    rw [List.foldl_cons, show mergeStep s τ (M, lg) x =
        (objSet M x.id (resolveConflict s lg x x τ).1,
         (resolveConflict s lg x x τ).2) by rw [mergeStep]; rw [h],
      resolveConflict_self_fst, objSet_eq_self_of_mem hnd hx]
    exact ih _ _ hnd (fun r hr => hl r (List.mem_cons_of_mem x hr))

theorem map_id_objValues {m : List (String × Record)}
    (hm : ∀ p ∈ m, Record.id p.2 = p.1) :
    (objValues m).map Record.id = objKeys m := by
  rw [objValues, objKeys, List.map_map]
  exact List.map_congr_left (fun p hp => hm p hp)

theorem mergeCollection_fst (s : String) (lg : ConflictLog)
    (L R : List Record) (τ : String) :
    (mergeCollection s lg L R τ).1 =
      objValues ((R.foldl (mergeStep s τ) (seedMap [] L, lg)).1) := rfl

theorem consistent_seed_nil (s : String) (lg : ConflictLog)
    (L R : List Record) (τ : String) :
    ∀ p ∈ (R.foldl (mergeStep s τ) (seedMap [] L, lg)).1,
      Record.id p.2 = p.1 :=
  consistent_mergeFold s τ R _ lg (consistent_seedMap L (by simp))

theorem mergeCollection_map_id (s : String) (lg : ConflictLog)
    (L R : List Record) (τ : String) :
    (mergeCollection s lg L R τ).1.map Record.id =
      objKeys ((R.foldl (mergeStep s τ) (seedMap [] L, lg)).1) := by
  rw [mergeCollection_fst]
  exact map_id_objValues (consistent_seed_nil s lg L R τ)

theorem mergeCollection_self (s : String) (lg : ConflictLog)
    (c : List Record) (τ : String) (hnd : (c.map Record.id).Nodup) :
    (mergeCollection s lg c c τ).1 = c := by
  have hseed : seedMap [] c = c.map (fun r => (r.id, r)) := by
    rw [seedMap_eq_append (by simp [objKeys]) hnd, List.nil_append]
  have hkeys : objKeys (c.map (fun r => (r.id, r))) = c.map Record.id := by
    rw [objKeys, List.map_map]
    rfl
  rw [mergeCollection_fst, hseed,
    mergeFold_fixed s τ c _ lg (by rw [hkeys]; exact hnd)
      (fun r hr => List.mem_map.mpr ⟨r, hr, rfl⟩),
    objValues, List.map_map]
  exact List.map_id c

theorem mergeCollection_nodup_ids (s : String) (lg : ConflictLog)
    (L R : List Record) (τ : String) :
    ((mergeCollection s lg L R τ).1.map Record.id).Nodup := by
  rw [mergeCollection_map_id]
  exact nodup_objKeys_mergeFold s τ R _ lg
    (nodup_objKeys_seedMap L (by simp [objKeys]))

/-! ## Claim theorems -/

/-- C1 counterexample: under `last-write-wins`, on an exact timestamp tie
`resolveConflict` returns the REMOTE record, not the local one: `recA`
(local) and `recB` (remote) share id `t1` and `updatedAt = 100`, yet the
resolver picks `recB ≠ recA`. -/
theorem resolveConflict_tie_remote_cex :
    (resolveConflict "last-write-wins" [] recA recB "transactions").1 = recB
      ∧ recB ≠ recA := by
  constructor
  · rfl
  · decide

/-- C1 (amended): under `last-write-wins`, `resolveConflict` returns the
record whose `updatedAt ?? createdAt ?? 0` timestamp is strictly higher,
and on an exact tie it returns the REMOTE record (the code compares with
strict `>`, so the tie falls to the `else` branch); the conflict log is
untouched. -/
theorem resolveConflict_lww (lg : ConflictLog) (a b : Record) (τ : String) :
    recordTime (resolveConflict "last-write-wins" lg a b τ).1 =
      max (recordTime a) (recordTime b) ∧
    ((resolveConflict "last-write-wins" lg a b τ).1 = a ∨
      (resolveConflict "last-write-wins" lg a b τ).1 = b) ∧
    (recordTime b < recordTime a →
      (resolveConflict "last-write-wins" lg a b τ).1 = a) ∧
    (recordTime a < recordTime b →
      (resolveConflict "last-write-wins" lg a b τ).1 = b) ∧
    (recordTime a = recordTime b →
      (resolveConflict "last-write-wins" lg a b τ).1 = b) ∧
    (resolveConflict "last-write-wins" lg a b τ).2 = lg := by
  have hres : resolveConflict "last-write-wins" lg a b τ =
      (if recordTime a > recordTime b then a else b, lg) := by
    rw [resolveConflict, if_pos rfl]
  rw [hres]
  refine ⟨?_, ?_,
    fun hlt => by simp [show recordTime a > recordTime b from hlt],
    fun hlt => by rw [if_neg (by omega)],
    fun heq => by rw [if_neg (by omega)], rfl⟩
  · by_cases h : recordTime a > recordTime b <;> simp [h] <;> omega
  · by_cases h : recordTime a > recordTime b <;> simp [h]

/-- C1 witness: the amended tie case evaluated at `recA` / `recB`
(both timestamps are 100). -/
theorem resolveConflict_lww_witness :
    (resolveConflict "last-write-wins" [] recA recB "transactions").1 =
      recB :=
  (resolveConflict_lww [] recA recB "transactions").2.2.2.2.1 rfl

/-- C2: `mergeCollection` is an outer join keyed by id: assuming ids are
unique within each input, every id of `L ∪ R` occurs exactly once in the
output (Nodup + membership), every output record comes from `L` or `R`
(no content is originated), and a record whose id occurs on only one side
is always kept (absence is not deletion). -/
theorem mergeCollection_outer_join (s : String) (lg : ConflictLog)
    (L R : List Record) (τ : String)
    (hL : (L.map Record.id).Nodup) (hR : (R.map Record.id).Nodup) :
    ((mergeCollection s lg L R τ).1.map Record.id).Nodup ∧
    (∀ i, i ∈ (mergeCollection s lg L R τ).1.map Record.id ↔
      i ∈ L.map Record.id ∨ i ∈ R.map Record.id) ∧
    (∀ rec ∈ (mergeCollection s lg L R τ).1, rec ∈ L ∨ rec ∈ R) ∧
    (∀ rec ∈ L, Record.id rec ∉ R.map Record.id →
      rec ∈ (mergeCollection s lg L R τ).1) ∧
    (∀ rec ∈ R, Record.id rec ∉ L.map Record.id →
      rec ∈ (mergeCollection s lg L R τ).1) := by
  refine ⟨mergeCollection_nodup_ids s lg L R τ, ?_, ?_, ?_, ?_⟩
  · intro i
    rw [mergeCollection_map_id, mem_objKeys_mergeFold, mem_objKeys_seedMap]
    simp [objKeys]
  · intro rec hrec
    rw [mergeCollection_fst] at hrec
    rcases mem_objValues_mergeFold s τ R _ lg rec hrec with h1 | h1
    · rcases mem_objValues_seedMap L h1 with h2 | h2
      · simp [objValues] at h2
      · exact Or.inl h2
    · exact Or.inr h1
  · intro rec hrec hnot
    rw [mergeCollection_fst]
    have hm : (rec.id, rec) ∈
        (R.foldl (mergeStep s τ) (seedMap [] L, lg)).1 :=
      mem_mergeFold_of_not_mem s τ R _ lg _
        (mem_seedMap_self hrec hL []) hnot
    exact List.mem_map.mpr ⟨(rec.id, rec), hm, rfl⟩
  · intro rec hrec hnot
    rw [mergeCollection_fst]
    have hk : rec.id ∉ objKeys (seedMap ([] : List (String × Record)) L) := by
      rw [mem_objKeys_seedMap]
      rintro (h | h)
      · simp [objKeys] at h
      · exact hnot h
    have hm := mem_mergeFold_self s τ R _ lg rec hrec hR hk
    exact List.mem_map.mpr ⟨(rec.id, rec), hm, rfl⟩

/-- C2 witness: with local `[recA]` (id t1) and remote `[recC]` (id t2),
the remote-only record `recC` survives the merge. -/
theorem mergeCollection_outer_join_witness :
    recC ∈ (mergeCollection "last-write-wins" [] [recA] [recC]
      "transactions").1 :=
  (mergeCollection_outer_join "last-write-wins" [] [recA] [recC]
    "transactions" (by decide) (by decide)).2.2.2.2 recC (by decide)
    (by decide)

/-- C3: the clock merge performed during `mergeData` is the
coordinate-wise maximum (`max (a[actor] ?? 0, b[actor] ?? 0)` per actor
key present in either input), hence commutative as a map (same value at
every key and same key set), idempotent (`mergeClocks a a = a`), and it
never decreases any counter; and `mergeData` on a present remote snapshot
produces exactly this merged clock. -/
theorem mergeClocks_spec (a b : List (String × Nat))
    (hA : (objKeys a).Nodup) (hB : (objKeys b).Nodup) :
    (∀ k, vcGet (mergeClocks a b) k = max (vcGet a k) (vcGet b k)) ∧
    (∀ k, vcGet (mergeClocks a b) k = vcGet (mergeClocks b a) k) ∧
    (∀ k, k ∈ objKeys (mergeClocks a b) ↔ k ∈ objKeys (mergeClocks b a)) ∧
    mergeClocks a a = a ∧
    (∀ k, vcGet a k ≤ vcGet (mergeClocks a b) k) ∧
    (∀ (s : String) (lg : ConflictLog) (ld rd : Snapshot) (now : Nat),
      ld.vectorClock = a → rd.vectorClock = b →
      (mergeData s lg ld (some rd) now).1.vectorClock = mergeClocks a b) := by
  refine ⟨vcGet_mergeClocks a b hB, ?_, ?_, mergeClocks_self hA, ?_, ?_⟩
  · intro k
    rw [vcGet_mergeClocks a b hB, vcGet_mergeClocks b a hA, Nat.max_comm]
  · intro k
    rw [mem_objKeys_mergeClocks, mem_objKeys_mergeClocks]
    exact Or.comm
  · intro k
    rw [vcGet_mergeClocks a b hB]
    omega
  · intro s lg ld rd now h1 h2
    rw [← h1, ← h2]
    rfl

/-- C3 witness: the spec evaluated at the concrete clocks
`[(alice,1),(bob,3)]` and `[(bob,2),(carol,5)]`, checking the
coordinate-wise maximum at `bob` and idempotence. -/
theorem mergeClocks_spec_witness :
    vcGet (mergeClocks [("alice", 1), ("bob", 3)]
        [("bob", 2), ("carol", 5)]) "bob" =
      max (vcGet [("alice", 1), ("bob", 3)] "bob")
        (vcGet [("bob", 2), ("carol", 5)] "bob") ∧
    mergeClocks [("alice", 1), ("bob", 3)] [("alice", 1), ("bob", 3)] =
      [("alice", 1), ("bob", 3)] :=
  ⟨(mergeClocks_spec [("alice", 1), ("bob", 3)] [("bob", 2), ("carol", 5)]
      (by decide) (by decide)).1 "bob",
   (mergeClocks_spec [("alice", 1), ("bob", 3)] [("bob", 2), ("carol", 5)]
      (by decide) (by decide)).2.2.2.1⟩

/-- C9: under the `manual` strategy `resolveConflict` returns the local
record as interim winner and appends the conflicting `(local, remote)`
pair to the conflict log, preserving every previously logged conflict
(so neither version is silently lost).  `queueConflict` itself is
modelled from the spec (it is missing from the source). -/
theorem resolveConflict_manual (lg : ConflictLog) (a b : Record)
    (τ : String) :
    (resolveConflict "manual" lg a b τ).1 = a ∧
    (a, b, τ) ∈ (resolveConflict "manual" lg a b τ).2 ∧
    (∀ c ∈ lg, c ∈ (resolveConflict "manual" lg a b τ).2) := by
  have hres : resolveConflict "manual" lg a b τ =
      (a, queueConflict lg a b τ) := rfl
  rw [hres, queueConflict]
  exact ⟨rfl, List.mem_append_right lg (List.mem_singleton.mpr rfl),
    fun c hc => List.mem_append_left _ hc⟩

/-- C9 witness: the manual resolver evaluated on `recA` / `recB` with a
non-empty prior log: the old entry is preserved. -/
theorem resolveConflict_manual_witness :
    (recC, recC, "budgets") ∈
      (resolveConflict "manual" [(recC, recC, "budgets")] recA recB
        "transactions").2 :=
  (resolveConflict_manual [(recC, recC, "budgets")] recA recB
    "transactions").2.2 (recC, recC, "budgets") (by decide)

/-- C10: for any strategy string other than the four recognized ones,
`resolveConflict` falls to the `default` branch and returns the local
record unchanged, with the conflict log untouched. -/
theorem resolveConflict_default (s : String) (lg : ConflictLog)
    (a b : Record) (τ : String)
    (h1 : s ≠ "last-write-wins") (h2 : s ≠ "remote-wins")
    (h3 : s ≠ "local-wins") (h4 : s ≠ "manual") :
    resolveConflict s lg a b τ = (a, lg) := by
  rw [resolveConflict, if_neg h1, if_neg h2, if_neg h3, if_neg h4]

/-- C10 witness: the unrecognized strategy `"merge"` returns the local
record. -/
theorem resolveConflict_default_witness :
    resolveConflict "merge" [] recA recB "transactions" = (recA, []) :=
  resolveConflict_default "merge" [] recA recB "transactions"
    (by decide) (by decide) (by decide) (by decide)

/-- C5: every failure path of `getRemoteData` — network error, non-OK
HTTP status, missing document content, JSON parse failure, decryption
failure — yields `null` (`none`), and `mergeData` with no remote
snapshot is the identity on the local snapshot and the conflict log, so
the cycle treats these failures as the first-sync case. -/
theorem getRemoteData_failure_degrades (g : String) (fc : Option String)
    (parse : String → Option ParsedDoc)
    (decrypt : Option String → Option Snapshot) (content : String)
    (status : Nat) :
    getRemoteData (some g) fc .fetchError parse decrypt = none ∧
    getRemoteData (some g) fc (.httpNotOk status) parse decrypt = none ∧
    getRemoteData (some g) fc (.gotGist none) parse decrypt = none ∧
    (parse content = none →
      getRemoteData (some g) fc (.gotGist (some content)) parse decrypt =
        none) ∧
    (∀ doc, parse content = some doc → doc.encrypted = true →
      fc.isSome = true → decrypt doc.payload = none →
      getRemoteData (some g) fc (.gotGist (some content)) parse decrypt =
        none) ∧
    (∀ (s : String) (lg : ConflictLog) (localData : Snapshot) (now : Nat),
      mergeData s lg localData none now = (localData, lg)) := by
  refine ⟨rfl, rfl, rfl, ?_, ?_, fun s lg ld now => rfl⟩
  · intro h
    simp [getRemoteData, h]
  · intro doc hd he hf hdec
    simp [getRemoteData, hd, he, hf, hdec]

/-- C5 witness: a gist body that fails `JSON.parse` degrades to `none`. -/
theorem getRemoteData_failure_witness :
    getRemoteData (some "gist1") (some "FAM1")
      (FetchOutcome.gotGist (some "not json")) (fun _ => none)
      (fun _ => none) = none :=
  (getRemoteData_failure_degrades "gist1" (some "FAM1") (fun _ => none)
    (fun _ => none) "not json" 500).2.2.2.1 rfl

/-- C7: a `syncNow` call or a `processSyncQueue` drain arriving while
`syncInProgress` is already set returns immediately with the manager
state (queue, clock, stores) completely unchanged; the excess trigger is
dropped, not queued. -/
theorem busy_guard_noop (st : MgrState) (eff : SyncEffects)
    (transmit : QueueOp → Except String Unit)
    (h : st.syncInProgress = true) :
    syncNow st eff = (st, .ok ()) ∧ processSyncQueue st transmit = st := by
  constructor
  · rw [syncNow, if_pos (by rw [h]; simp)]
  · rw [processSyncQueue, if_pos (Or.inr h)]

/-- C7 witness: the guards evaluated on a concrete busy manager state. -/
theorem busy_guard_noop_witness :
    syncNow stBusy effOk = (stBusy, .ok ()) ∧
    processSyncQueue stBusy failTransmit = stBusy :=
  busy_guard_noop stBusy effOk failTransmit rfl

/-- C8 (amended): a failure while durably saving a queued operation in
`queueOperation` rejects to its caller; but `syncNow` never rejects —
every failure inside the cycle, including the local save of the merged
snapshot, is caught by its `catch` block and surfaced only as
`syncStatus = "error"`. -/
theorem persistence_failure_propagation (st : MgrState) (opId : String)
    (now : Nat) (payload : String) (e : String) (online : Bool)
    (transmit : QueueOp → Except String Unit) (eff : SyncEffects) :
    (queueOperation st opId now payload (.error e) online transmit).2 =
      .error e ∧
    (syncNow st eff).2 = .ok () := by
  constructor
  · rfl
  · rw [syncNow]
    split
    · rfl
    · dsimp only
      rcases syncCycle
          { st with syncInProgress := true, syncStatus := "syncing" } eff
        with ⟨st2, rv⟩
      cases rv <;> rfl

/-- C8 counterexample: with the IndexedDB save failing (`"disk full"`)
while saving the merged snapshot, the `syncNow` promise still RESOLVES
(`.ok ()`) — the failure is caught internally (`syncStatus = "error"`),
not propagated to the caller as the claim states. -/
theorem syncNow_save_failure_cex :
    effSaveFail.saveResult = Except.error "disk full" ∧
    (syncNow stBase effSaveFail).2 = Except.ok () ∧
    (syncNow stBase effSaveFail).1.syncStatus = "error" :=
  ⟨rfl, rfl, rfl⟩

/-- C4 (code bug), evaluated at the failing input — a queue holding one
pending operation and a transport that always fails.  The first drain
marks the operation `failed` with `retryCount = 1` and the recorded
reason and KEEPS it in the queue; the second drain selects only
`pending` operations, so it changes nothing: the operation is never
re-attempted, `retryCount` can never exceed 3, and the claimed
drop-after-four-failures never happens — the queue never returns to
empty. -/
theorem processSyncQueue_retry_unreachable :
    (processSyncQueue stQueue failTransmit).syncQueue.map
        (fun op => (op.status, op.retryCount, op.error)) =
      [("failed", some 1, some "network error")] ∧
    processSyncQueue (processSyncQueue stQueue failTransmit)
        failTransmit =
      processSyncQueue stQueue failTransmit :=
  ⟨rfl, rfl⟩

theorem processSyncQueue_of_empty {st : MgrState} (h : st.syncQueue = [])
    (t : QueueOp → Except String Unit) : processSyncQueue st t = st := by
  rw [processSyncQueue, if_pos (Or.inl (by simp [h]))]

theorem mergeData_some_fst (s : String) (lg : ConflictLog)
    (ld rd : Snapshot) (now : Nat) :
    (mergeData s lg ld (some rd) now).1 =
      { colls := (mergeCollections s lg ld.colls rd.colls).1,
        vectorClock := mergeClocks ld.vectorClock rd.vectorClock,
        lastModified := now, memberCode := ld.memberCode } := rfl

theorem mergeCollections_nodup (s : String) (lg : ConflictLog)
    (a b : Collections) : CollsNodup (mergeCollections s lg a b).1 := by
  refine ⟨?_, ?_, ?_, ?_, ?_, ?_, ?_, ?_, ?_, ?_, ?_⟩ <;>
    exact mergeCollection_nodup_ids _ _ _ _ _

theorem mergeCollections_self (s : String) (lg : ConflictLog)
    (c : Collections) (h : CollsNodup c) :
    (mergeCollections s lg c c).1 = c := by
  obtain ⟨t, b, sg, br, ac, iv, sl, ft, sn, se, af⟩ := c
  obtain ⟨h1, h2, h3, h4, h5, h6, h7, h8, h9, h10, h11⟩ := h
  simp only [mergeCollections]
  congr 1
  exacts [mergeCollection_self _ _ _ _ h1, mergeCollection_self _ _ _ _ h2,
    mergeCollection_self _ _ _ _ h3, mergeCollection_self _ _ _ _ h4,
    mergeCollection_self _ _ _ _ h5, mergeCollection_self _ _ _ _ h6,
    mergeCollection_self _ _ _ _ h7, mergeCollection_self _ _ _ _ h8,
    mergeCollection_self _ _ _ _ h9, mergeCollection_self _ _ _ _ h10,
    mergeCollection_self _ _ _ _ h11]

theorem syncNow_ok_run (st : MgrState) (eff : SyncEffects) (g : String)
    (R : Snapshot) (hq : st.syncQueue = [])
    (hflag : st.syncInProgress = false) (hg : st.gistId = some g)
    (hR : st.remoteDoc = some R) (hon : eff.online = true)
    (hf : eff.fetchOk = true) (hs : eff.saveResult = .ok ())
    (hu : eff.uploadResult = .ok ()) :
    syncNow st eff =
      ({ st with
          vectorClock := (mergeData st.conflictResolutionStrategy
            st.conflictLog (getLocalData st eff.now) (some R)
            eff.now).1.vectorClock,
          conflictLog := (mergeData st.conflictResolutionStrategy
            st.conflictLog (getLocalData st eff.now) (some R) eff.now).2,
          localStore := (mergeData st.conflictResolutionStrategy
            st.conflictLog (getLocalData st eff.now) (some R)
            eff.now).1.colls,
          remoteDoc := some (mergeData st.conflictResolutionStrategy
            st.conflictLog (getLocalData st eff.now) (some R) eff.now).1,
          lastSyncTime := some eff.now,
          syncStatus := "success", syncInProgress := false }, .ok ()) := by
  obtain ⟨sp, strat, vc, q, clog, mc, gid, ls, rd, lst, ss⟩ := st
  obtain ⟨onl, enow, fok, tr, sv, up⟩ := eff
  dsimp only at hq hflag hg hR hon hf hs hu
  subst hq hflag hg hR hon hf hs hu
  rfl

theorem snapshot_ext {x y : Snapshot} (h1 : x.colls = y.colls)
    (h2 : x.vectorClock = y.vectorClock)
    (h3 : x.lastModified = y.lastModified)
    (h4 : x.memberCode = y.memberCode) : x = y := by
  obtain ⟨xc, xv, xl, xm⟩ := x
  obtain ⟨yc, yv, yl, ym⟩ := y
  dsimp only at h1 h2 h3 h4
  subst h1 h2 h3 h4
  rfl

/-- C6: running `syncNow` twice in a row with an empty operation queue
and a stable remote document (the second fetch sees exactly what the
first cycle uploaded) yields an unchanged vector clock, an unchanged
local store, and a merged snapshot differing from the first run only in
its freshly stamped `lastModified` on the second run. -/
theorem syncNow_idempotent (st st1 st2 : MgrState)
    (eff1 eff2 : SyncEffects) (g : String) (R : Snapshot)
    (hq : st.syncQueue = []) (hflag : st.syncInProgress = false)
    (hg : st.gistId = some g) (hR : st.remoteDoc = some R)
    (hvc : (objKeys st.vectorClock).Nodup)
    (hon1 : eff1.online = true) (hf1 : eff1.fetchOk = true)
    (hs1 : eff1.saveResult = .ok ()) (hu1 : eff1.uploadResult = .ok ())
    (hon2 : eff2.online = true) (hf2 : eff2.fetchOk = true)
    (hs2 : eff2.saveResult = .ok ()) (hu2 : eff2.uploadResult = .ok ())
    (h1 : syncNow st eff1 = (st1, .ok ()))
    (h2 : syncNow st1 eff2 = (st2, .ok ())) :
    st2.vectorClock = st1.vectorClock ∧
    st2.localStore = st1.localStore ∧
    st2.remoteDoc =
      st1.remoteDoc.map (fun m => { m with lastModified := eff2.now }) := by
  rw [syncNow_ok_run st eff1 g R hq hflag hg hR hon1 hf1 hs1 hu1] at h1
  have hst1 := congrArg Prod.fst h1
  dsimp only at hst1
  have hq1 : st1.syncQueue = [] := by
    rw [← hst1]
    exact hq
  have hflag1 : st1.syncInProgress = false := by rw [← hst1]
  have hg1 : st1.gistId = some g := by
    rw [← hst1]
    exact hg
  have hR1 : st1.remoteDoc = some ((mergeData st.conflictResolutionStrategy
      st.conflictLog (getLocalData st eff1.now) (some R) eff1.now).1) := by
    rw [← hst1]
  rw [syncNow_ok_run st1 eff2 g _ hq1 hflag1 hg1 hR1 hon2 hf2 hs2 hu2] at h2
  have hst2 := congrArg Prod.fst h2
  dsimp only at hst2
  subst hst2
  subst hst1
  refine ⟨mergeClocks_self (nodup_objKeys_mergeClocks R.vectorClock hvc),
    mergeCollections_self _ _ _
      (mergeCollections_nodup st.conflictResolutionStrategy st.conflictLog
        (getLocalData st eff1.now).colls R.colls), ?_⟩
  exact congrArg some (snapshot_ext
    (mergeCollections_self _ _ _
      (mergeCollections_nodup st.conflictResolutionStrategy st.conflictLog
        (getLocalData st eff1.now).colls R.colls))
    (mergeClocks_self (nodup_objKeys_mergeClocks R.vectorClock hvc))
    rfl rfl)

/-- C6 witness: two back-to-back successful cycles over the concrete
state `stBase` (remote document `snapR`): the second run leaves the
clock and store unchanged and only restamps `lastModified`. -/
theorem syncNow_idempotent_witness :
    ((syncNow (syncNow stBase effOk).1 effOk2).1.vectorClock =
      (syncNow stBase effOk).1.vectorClock) ∧
    ((syncNow (syncNow stBase effOk).1 effOk2).1.localStore =
      (syncNow stBase effOk).1.localStore) ∧
    ((syncNow (syncNow stBase effOk).1 effOk2).1.remoteDoc =
      (syncNow stBase effOk).1.remoteDoc.map
        (fun m => { m with lastModified := effOk2.now })) :=
  syncNow_idempotent stBase (syncNow stBase effOk).1
    (syncNow (syncNow stBase effOk).1 effOk2).1 effOk effOk2 "gist1" snapR
    rfl rfl rfl rfl (by decide) rfl rfl rfl rfl rfl rfl rfl rfl rfl rfl

end FFH
